import Mathlib

/-!
Shallow embedding of the geometry engine of the UWCubeSat/found tools
(`tools/generator`, `tools/generator2`, `tools/attitude`), together with
theorems settling the specification claims about it.

Conventions of the embedding:
* Python/numpy floating-point numbers are embedded as real numbers `ℝ` where
  trigonometry is involved, and as rationals `ℚ` where the code is purely
  arithmetic, so that concrete runs are decidable.
* `raise` statements become `Except` values; code with no `raise` is embedded
  as an `Except` that never produces `.error`.
* Random draws (`scipy.spatial.transform.Rotation.random`, `np.random`) are
  passed in explicitly as parameters.

The file is organised as definitions first, then theorems.
-/

namespace Found

/-! ## Definitions -/

/-- A 3-component vector, mirroring `spatial.coordinate.Vector` for the
3-dimensional case (the dimension used by the geometry engine). -/
structure V3 (α : Type) where
  x : α
  y : α
  z : α
  deriving DecidableEq, Repr

/-- A 2-component vector (image points produced by `Camera.spatial_to_camera`). -/
structure V2 (α : Type) where
  x : α
  y : α
  deriving DecidableEq, Repr

namespace V3

variable {α : Type} [CommRing α]

/-- `Vector.__add__`: componentwise sum. -/
def add (v w : V3 α) : V3 α := ⟨v.x + w.x, v.y + w.y, v.z + w.z⟩

/-- `Vector.__sub__`: componentwise difference. -/
def sub (v w : V3 α) : V3 α := ⟨v.x - w.x, v.y - w.y, v.z - w.z⟩

/-- `Vector.__mul__`: scalar multiple (`factor * self.vector`). -/
def smul (v : V3 α) (c : α) : V3 α := ⟨c * v.x, c * v.y, c * v.z⟩

/-- `Vector.__neg__`: componentwise negation. -/
def neg (v : V3 α) : V3 α := ⟨-v.x, -v.y, -v.z⟩

/-- Dot product (`np.dot`; also `norm` squared). -/
def dot (v w : V3 α) : α := v.x * w.x + v.y * w.y + v.z * w.z

/-- `Vector.cross` via `np.cross`. -/
def cross (v w : V3 α) : V3 α :=
  ⟨v.y * w.z - v.z * w.y, v.z * w.x - v.x * w.z, v.x * w.y - v.y * w.x⟩

/-- The zero vector `Vector(0, 0, 0)`. -/
def zero : V3 α := ⟨0, 0, 0⟩

/-- `Vector.norm` = `np.linalg.norm`, the Euclidean norm (real-valued). -/
noncomputable def norm (v : V3 ℝ) : ℝ := Real.sqrt (dot v v)

/-- `Vector.normalize`: `self.vector / self.norm`, with no zero test. -/
noncomputable def normalize (v : V3 ℝ) : V3 ℝ := smul v (1 / norm v)

/-- `Vector.normalize` as the code performs it: there is no `raise` in its
body (numpy division of a float array by `0.0` yields non-finite entries and
only a runtime warning), so the error channel is never used. -/
noncomputable def normalizeE (v : V3 ℝ) : Except String (V3 ℝ) :=
  Except.ok (normalize v)

end V3

/-! ### `tools/attitude` — `transform.transform.Attitude` normalization

`Attitude.__init__` (transform.py) runs, for each angle independently,
`while`-loops that subtract or add `ANGLE_NORM = 360` until a strict
comparison fails.  Angles (degrees) are embedded as rationals. -/

/-- One `while x > bound: x -= 360` loop. -/
def wrapDown (bound : ℚ) (x : ℚ) : ℚ :=
  if bound < x then wrapDown bound (x - 360) else x
  termination_by (⌈(x - bound) / 360⌉).toNat
  decreasing_by
    rename_i h
    have h1 : (1 : ℤ) ≤ ⌈(x - bound) / 360⌉ := by
      have hnum : (0 : ℚ) < x - bound := by linarith
      have hpos : (0 : ℚ) < (x - bound) / 360 := by positivity
      have := Int.ceil_pos.mpr hpos
      omega
    have h2 : ⌈(x - 360 - bound) / 360⌉ = ⌈(x - bound) / 360⌉ - 1 := by
      have harg : (x - 360 - bound) / 360 = (x - bound) / 360 - 1 := by ring
      rw [harg, Int.ceil_sub_one]
    omega

/-- One `while x < bound: x += 360` loop. -/
def wrapUp (bound : ℚ) (x : ℚ) : ℚ :=
  if x < bound then wrapUp bound (x + 360) else x
  termination_by (⌈(bound - x) / 360⌉).toNat
  decreasing_by
    rename_i h
    have h1 : (1 : ℤ) ≤ ⌈(bound - x) / 360⌉ := by
      have hnum : (0 : ℚ) < bound - x := by linarith
      have hpos : (0 : ℚ) < (bound - x) / 360 := by positivity
      have := Int.ceil_pos.mpr hpos
      omega
    have h2 : ⌈(bound - (x + 360)) / 360⌉ = ⌈(bound - x) / 360⌉ - 1 := by
      have harg : (bound - (x + 360)) / 360 = (bound - x) / 360 - 1 := by ring
      rw [harg, Int.ceil_sub_one]
    omega

/-- `transform.Attitude.__init__` normalization of `ra`:
`while ra > 360: ra -= 360` then `while ra < 0: ra += 360`. -/
def normRa (x : ℚ) : ℚ := wrapUp 0 (wrapDown 360 x)

/-- `transform.Attitude.__init__` normalization of `de`:
`while de > 180: de -= 360` then `while de < -180: de += 360`
(`ANGLE_NORM / 2 = 180`). -/
def normDe (x : ℚ) : ℚ := wrapUp (-180) (wrapDown 180 x)

/-- `transform.Attitude.__init__` normalization of `roll`:
`while roll > 0: roll -= 360` then `while roll < 0: roll += 360`. -/
def normRoll (x : ℚ) : ℚ := wrapUp 0 (wrapDown 0 x)

/-- The attitude tool's `Attitude` after construction: the three angles
(degrees), each independently wrapped. -/
structure AttitudeT where
  ra : ℚ
  de : ℚ
  roll : ℚ
  deriving DecidableEq, Repr

/-- `transform.Attitude.__init__`. -/
def mkAttitudeT (ra de roll : ℚ) : AttitudeT :=
  ⟨normRa ra, normDe de, normRoll roll⟩

/-- The generator's `spatial.coordinate.Attitude` after construction: the
constructor only converts degrees to radians when `radians=False`
(`converter = lambda x: np.deg2rad(x) if not radians else x`); it performs
no wraparound whatsoever. -/
structure AttitudeG where
  rightAscension : ℝ
  declination : ℝ
  roll : ℝ

/-- `spatial.coordinate.Attitude.__init__`. -/
noncomputable def mkAttitudeG (ra de roll : ℝ) (radians : Bool) : AttitudeG :=
  let converter : ℝ → ℝ := fun v => if radians then v else v * (Real.pi / 180)
  ⟨converter ra, converter de, converter roll⟩

/-! ### 3×3 matrices

Used both for the generator's stacked basis (`np.column_stack` +
`np.linalg.solve`) and for the attitude tool's direction-cosine matrices. -/

/-- A 3×3 matrix with entries listed row by row. -/
structure Mat3 (α : Type) where
  m11 : α
  m12 : α
  m13 : α
  m21 : α
  m22 : α
  m23 : α
  m31 : α
  m32 : α
  m33 : α
  deriving DecidableEq, Repr

namespace Mat3

variable {α : Type} [CommRing α]

/-- Matrix product. -/
def mul (A B : Mat3 α) : Mat3 α :=
  ⟨A.m11 * B.m11 + A.m12 * B.m21 + A.m13 * B.m31,
   A.m11 * B.m12 + A.m12 * B.m22 + A.m13 * B.m32,
   A.m11 * B.m13 + A.m12 * B.m23 + A.m13 * B.m33,
   A.m21 * B.m11 + A.m22 * B.m21 + A.m23 * B.m31,
   A.m21 * B.m12 + A.m22 * B.m22 + A.m23 * B.m32,
   A.m21 * B.m13 + A.m22 * B.m23 + A.m23 * B.m33,
   A.m31 * B.m11 + A.m32 * B.m21 + A.m33 * B.m31,
   A.m31 * B.m12 + A.m32 * B.m22 + A.m33 * B.m32,
   A.m31 * B.m13 + A.m32 * B.m23 + A.m33 * B.m33⟩

/-- Transpose. -/
def transpose (A : Mat3 α) : Mat3 α :=
  ⟨A.m11, A.m21, A.m31, A.m12, A.m22, A.m32, A.m13, A.m23, A.m33⟩

/-- Identity matrix. -/
def one : Mat3 α := ⟨1, 0, 0, 0, 1, 0, 0, 0, 1⟩

/-- Matrix–vector product. -/
def mulVec (A : Mat3 α) (v : V3 α) : V3 α :=
  ⟨A.m11 * v.x + A.m12 * v.y + A.m13 * v.z,
   A.m21 * v.x + A.m22 * v.y + A.m23 * v.z,
   A.m31 * v.x + A.m32 * v.y + A.m33 * v.z⟩

/-- Determinant. -/
def det (A : Mat3 α) : α :=
  A.m11 * (A.m22 * A.m33 - A.m23 * A.m32)
    - A.m12 * (A.m21 * A.m33 - A.m23 * A.m31)
    + A.m13 * (A.m21 * A.m32 - A.m22 * A.m31)

/-- The matrix with the given columns (`np.column_stack`). -/
def ofCols (c1 c2 c3 : V3 α) : Mat3 α :=
  ⟨c1.x, c2.x, c3.x, c1.y, c2.y, c3.y, c1.z, c2.z, c3.z⟩

/-- The exact solution of `A·x = b` (`np.linalg.solve`), by Cramer's rule.
`np.linalg.solve` raises `LinAlgError` on a singular matrix; here a zero
determinant would produce divisions by zero, and every theorem about this
function assumes `det A ≠ 0`. -/
def solve3 {β : Type} [Field β] (A : Mat3 β) (b : V3 β) : V3 β :=
  let c1 : V3 β := ⟨A.m11, A.m21, A.m31⟩
  let c2 : V3 β := ⟨A.m12, A.m22, A.m32⟩
  let c3 : V3 β := ⟨A.m13, A.m23, A.m33⟩
  let d := det A
  ⟨det (ofCols b c2 c3) / d, det (ofCols c1 b c3) / d, det (ofCols c1 c2 b) / d⟩

end Mat3

/-! ### `tools/generator` — `spatial.coordinate.CoordinateSystem` -/

/-- The orthonormal basis stored by `CoordinateSystem.__init__`
(`self.basis = np.array([x_hat, y_hat, z_hat])`). -/
structure Basis3 where
  xhat : V3 ℝ
  yhat : V3 ℝ
  zhat : V3 ℝ

/-- `CoordinateSystem.__init__` with an attitude: the basis construction,
step for step.  Note the source reads
`de = attitude.declination  # Negate because this is CW` — the comment
announces a negation but the code does not negate `de`; only `roll` is
negated (`roll = -attitude.roll`). -/
noncomputable def coordBasis (att : AttitudeG) : Basis3 :=
  let ra := att.rightAscension
  let de := att.declination
  let roll := -att.roll
  -- Step 1: x_hat = <cos(de)cos(ra), cos(de)sin(ra), sin(de)>
  let xHat : V3 ℝ := ⟨Real.cos de * Real.cos ra, Real.cos de * Real.sin ra, Real.sin de⟩
  -- Step 2: y_hat_nominal = <-sin(ra), cos(ra), 0>
  let yHatNominal : V3 ℝ := ⟨-Real.sin ra, Real.cos ra, 0⟩
  -- Step 3: z_hat_nominal = x_hat × y_hat_nominal
  let zHatNominal := xHat.cross yHatNominal
  -- Step 4: z_hat = z_hat_nominal·cos(roll) − y_hat_nominal·sin(roll)
  let zHat := (zHatNominal.smul (Real.cos roll)).sub (yHatNominal.smul (Real.sin roll))
  -- Step 5: y_hat = y_hat_nominal·cos(roll) + z_hat_nominal·sin(roll)
  let yHat := (yHatNominal.smul (Real.cos roll)).add (zHatNominal.smul (Real.sin roll))
  ⟨xHat, yHat, zHat⟩

/-- Modelled from the spec: the claim states that `CoordinateSystem`
construction negates the declination (and the roll) before building the
basis.  This definition follows those words; it is `coordBasis` with
`de := -attitude.declination`, for comparison against the source. -/
noncomputable def specCoordBasis (att : AttitudeG) : Basis3 :=
  let ra := att.rightAscension
  let de := -att.declination
  let roll := -att.roll
  let xHat : V3 ℝ := ⟨Real.cos de * Real.cos ra, Real.cos de * Real.sin ra, Real.sin de⟩
  let yHatNominal : V3 ℝ := ⟨-Real.sin ra, Real.cos ra, 0⟩
  let zHatNominal := xHat.cross yHatNominal
  let zHat := (zHatNominal.smul (Real.cos roll)).sub (yHatNominal.smul (Real.sin roll))
  let yHat := (yHatNominal.smul (Real.cos roll)).add (zHatNominal.smul (Real.sin roll))
  ⟨xHat, yHat, zHat⟩

/-- The stacked basis matrix `np.column_stack([axis.vector for axis in
self.basis])` used by `to_coordinate_system`: basis vectors as columns. -/
noncomputable def basisMatrix (b : Basis3) : Mat3 ℝ :=
  Mat3.ofCols b.xhat b.yhat b.zhat

/-- Elementary rotation about z (the ZYX Euler factor `Rz`). -/
noncomputable def rotZ (t : ℝ) : Mat3 ℝ :=
  ⟨Real.cos t, -Real.sin t, 0, Real.sin t, Real.cos t, 0, 0, 0, 1⟩

/-- Elementary rotation about y. -/
noncomputable def rotY (t : ℝ) : Mat3 ℝ :=
  ⟨Real.cos t, 0, Real.sin t, 0, 1, 0, -Real.sin t, 0, Real.cos t⟩

/-- Elementary rotation about x. -/
noncomputable def rotX (t : ℝ) : Mat3 ℝ :=
  ⟨1, 0, 0, 0, Real.cos t, -Real.sin t, 0, Real.sin t, Real.cos t⟩

/-- `transform.Attitude.to_dcm`:
`Rotation.from_euler('ZYX', [self.ra, -self.de, -self.roll])`.  An intrinsic
Z-Y-X Euler rotation is the product `Rz(a)·Ry(b)·Rx(c)`; `to_dcm` feeds it
the negated declination and roll.  (Angle-unit conversion is left to the
caller; the composition structure is what matters here.) -/
noncomputable def toDcm (ra de roll : ℝ) : Mat3 ℝ :=
  (rotZ ra).mul ((rotY (-de)).mul (rotX (-roll)))

/-- Result type of `CoordinateSystem.to_coordinate_system`, which returns
`result[0]` (a bare `Vector`) when the result has exactly one element, and
the list of vectors otherwise. -/
inductive CoordRet (α : Type) where
  | vec (v : V3 α)
  | list (l : List (V3 α))
  deriving DecidableEq, Repr

/-- A coordinate system over `ℚ`: the stored basis rows plus the origin.
The attitude-built basis lives in the real-valued embedding (`coordBasis`);
the transform logic itself is rational arithmetic and is embedded over `ℚ`
so that concrete runs are decidable. -/
structure CoordSysQ where
  xhat : V3 ℚ
  yhat : V3 ℚ
  zhat : V3 ℚ
  position : V3 ℚ
  deriving DecidableEq, Repr

/-- The `attitude=None` branch of `CoordinateSystem.__init__` (also
`CELESTIAL_SYSTEM`): identity basis, origin position. -/
def celestialSystem : CoordSysQ :=
  ⟨⟨1, 0, 0⟩, ⟨0, 1, 0⟩, ⟨0, 0, 1⟩, ⟨0, 0, 0⟩⟩

/-- `CoordinateSystem.to_coordinate_system`, step for step:

* `points = np.array([pt.vector - self.position.vector for pt in points])`
  stacks the shifted points as the **rows** of an `n×3` matrix;
* `if len(points.shape) == 2 and not points.shape[0] == 3 and
  points.shape[1] == 3: points = points.T` transposes to `3×n` — except when
  `n == 3`, where the guard fails and the matrix is left as is;
* `transformed = np.linalg.solve(basis, points).T` solves one linear system
  per **column** of the right-hand-side matrix;
* a single-element result is unwrapped (`return result[0]`).

An empty batch raises inside `np.linalg.solve` (the stacked array is
1-dimensional). -/
def toCoordinateSystem (sys : CoordSysQ) (pts : List (V3 ℚ)) :
    Except String (CoordRet ℚ) :=
  let shifted := pts.map (fun p => p.sub sys.position)
  if shifted.isEmpty then Except.error "LinAlgError" else
  let basis := Mat3.ofCols sys.xhat sys.yhat sys.zhat
  let transformed :=
    if shifted.length = 3 then
      -- not transposed: the columns of the stacked rows are the per-axis
      -- coordinate triples, and those are what gets solved
      match shifted with
      | [p, q, r] =>
        [basis.solve3 ⟨p.x, q.x, r.x⟩, basis.solve3 ⟨p.y, q.y, r.y⟩,
         basis.solve3 ⟨p.z, q.z, r.z⟩]
      | _ => []
    else
      -- transposed to 3×n: each shifted point is a column, solved
      -- independently; the trailing .T lists the solutions as rows
      shifted.map basis.solve3
  match transformed with
  | [v] => Except.ok (CoordRet.vec v)
  | l => Except.ok (CoordRet.list l)

/-! ### `tools/generator` — `spatial.camera.Camera` -/

/-- The camera intrinsics consumed by `spatial_to_camera` (the inherited
coordinate-system data plays no part in that method). -/
structure CameraQ where
  focalLength : ℚ
  pixelLength : ℚ
  xResolution : ℚ
  yResolution : ℚ
  deriving DecidableEq, Repr

/-- Result type of `Camera.spatial_to_camera`
(`Union[Vector, Tuple[None], Tuple[Vector]]`): a bare vector when exactly one
point survives, `[None] * len(points)` when none does, and a list of vectors
otherwise. -/
inductive CamReturn (α : Type) where
  | vec (v : V2 α)
  | noneList (n : ℕ)
  | vecList (l : List (V2 α))
  deriving DecidableEq, Repr

/-- The projection applied to a surviving point:
`factor = self.focal_length / point[0] / self.pixel_length`,
`image_point = Vector(factor * point[1], factor * point[2])`. -/
def projPoint (cam : CameraQ) (p : V3 ℚ) : V2 ℚ :=
  let factor := cam.focalLength / p.x / cam.pixelLength
  ⟨factor * p.y, factor * p.z⟩

/-- The loop of `spatial_to_camera`: points with `point[0] <
self.focal_length` are skipped (`continue`), every other point is projected.
(The `in_camera`/`print` block inside the loop only produces console output
and never changes `result`.) -/
def projList (cam : CameraQ) (pts : List (V3 ℚ)) : List (V2 ℚ) :=
  pts.filterMap (fun p =>
    if p.x < cam.focalLength then none else some (projPoint cam p))

/-- `Camera.spatial_to_camera`, including its return-shape convention:
`if not result: return [None] * len(points)`,
`elif len(result) == 1: return result[0]`, else `return result`. -/
def spatialToCamera (cam : CameraQ) (pts : List (V3 ℚ)) : CamReturn ℚ :=
  match projList cam pts with
  | [] => CamReturn.noneList pts.length
  | [v] => CamReturn.vec v
  | l => CamReturn.vecList l

/-! ### `tools/generator` — `curve.spherical.SphericalCurveProvider` -/

/-- `common.constants.EARTH_RADIUS` (meters). -/
noncomputable def EARTH_RADIUS : ℝ := 6378137

/-- `common.eval.float_equals` at the default tolerance `1e-3`. -/
def floatEquals (a b : ℝ) : Prop := |a - b| < 1 / 1000

noncomputable instance (a b : ℝ) : Decidable (floatEquals a b) :=
  inferInstanceAs (Decidable (_ < _))

/-- Step 1 intermediates of `SphericalCurveProvider.__init__`, kept
parametric in the body radius `R` and camera distance `d`:
`alpha = arcsin(R / d)`. -/
noncomputable def tangentAlpha (R d : ℝ) : ℝ := Real.arcsin (R / d)

/-- `tangent_len = sqrt(d·d − R·R)`. -/
noncomputable def tangentLen (R d : ℝ) : ℝ := Real.sqrt (d * d - R * R)

/-- `center_len = d − tangent_len · cos(alpha)`. -/
noncomputable def centerLen (R d : ℝ) : ℝ :=
  d - tangentLen R d * Real.cos (tangentAlpha R d)

/-- `radius_len = tangent_len · sin(alpha)`. -/
noncomputable def radiusLen (R d : ℝ) : ℝ :=
  tangentLen R d * Real.sin (tangentAlpha R d)

/-- `self.center = position.normalize() * center_len`, parametric in `R`. -/
noncomputable def exactCircleCenter (R : ℝ) (p : V3 ℝ) : V3 ℝ :=
  (V3.normalize p).smul (centerLen R (V3.norm p))

/-- The pre-normalization radius direction of Step 2: a vector orthogonal to
`position`, picked by the `float_equals` branch on the first coordinate that
is not within `1e-3` of zero. -/
noncomputable def sphericalRadiusDir (p : V3 ℝ) : V3 ℝ :=
  if ¬floatEquals 0 p.x then ⟨-(p.y + p.z) / p.x, 1, 1⟩
  else if ¬floatEquals 0 p.y then ⟨1, -(p.x + p.z) / p.y, 1⟩
  else ⟨1, 1, -(p.x + p.y) / p.z⟩

/-- `self.center` of `SphericalCurveProvider.__init__`. -/
noncomputable def sphericalCenter (p : V3 ℝ) : V3 ℝ :=
  exactCircleCenter EARTH_RADIUS p

/-- `self.radius = self.radius.normalize() * radius_len`. -/
noncomputable def sphericalRadius (p : V3 ℝ) : V3 ℝ :=
  (V3.normalize (sphericalRadiusDir p)).smul (radiusLen EARTH_RADIUS (V3.norm p))

/-- `self.radius2 = self.center.cross(self.radius).normalize() * radius_len`. -/
noncomputable def sphericalRadius2 (p : V3 ℝ) : V3 ℝ :=
  (V3.normalize ((sphericalCenter p).cross (sphericalRadius p))).smul
    (radiusLen EARTH_RADIUS (V3.norm p))

/-- The state stored by `SphericalCurveProvider.__init__`. -/
structure SphericalState where
  center : V3 ℝ
  radius : V3 ℝ
  radius2 : V3 ℝ

/-- `SphericalCurveProvider.__init__` as run: its body contains **no**
validation of the camera position and no `raise` statement (a position at or
inside the body radius silently produces non-finite intermediates through
`arcsin`/`sqrt`), so the error channel is never used. -/
noncomputable def sphericalInitE (p : V3 ℝ) : Except String SphericalState :=
  Except.ok ⟨sphericalCenter p, sphericalRadius p, sphericalRadius2 p⟩

/-- `np.linspace(a, b, n)` with the endpoint included (numpy default). -/
noncomputable def linspace (a b : ℝ) (n : ℕ) : List ℝ :=
  if n = 1 then [a]
  else (List.range n).map (fun i => a + (b - a) * i / (n - 1))

/-- One sample of `SphericalCurveProvider.generate_points`:
`self.center + self.radius * np.sin(t) + self.radius2 * np.cos(t)`. -/
noncomputable def genPoint (p : V3 ℝ) (t : ℝ) : V3 ℝ :=
  ((sphericalCenter p).add ((sphericalRadius p).smul (Real.sin t))).add
    ((sphericalRadius2 p).smul (Real.cos t))

/-- `SphericalCurveProvider.generate_points`:
`datapoints = np.linspace(0, 2π, num_points)` and the sampled points. -/
noncomputable def generatePoints (p : V3 ℝ) (numPoints : ℕ) :
    V3 ℝ × List (V3 ℝ) :=
  (sphericalCenter p, (linspace 0 (2 * Real.pi) numPoints).map (genPoint p))

/-! ### `tools/generator2` — `models.earth_model.WGS84Spheroid` -/

/-- `EARTH_EQUATORIAL_RADIUS` (meters). -/
noncomputable def EARTH_EQUATORIAL_RADIUS : ℝ := 6378137

/-- `EARTH_POLAR_RADIUS` (meters). -/
noncomputable def EARTH_POLAR_RADIUS : ℝ := 6356752.3

/-- `self.mean_radius = (2 * equatorial + polar) / 3`. -/
noncomputable def meanRadius : ℝ :=
  (2 * EARTH_EQUATORIAL_RADIUS + EARTH_POLAR_RADIUS) / 3

/-- The validation prefix of `WGS84Spheroid.get_earth_disk_points`:
`if cam_distance <= self.mean_radius: raise ValueError(...)`, then
`angular_radius = arcsin(mean_radius / cam_distance)`.  The Monte-Carlo
sampling loop that follows draws from the process-wide random source and is
modelled only through this validated prefix, which is all the claims use. -/
noncomputable def getEarthDiskPointsE (p : V3 ℝ) : Except String ℝ :=
  if V3.norm p ≤ meanRadius then Except.error "Camera is inside Earth!"
  else Except.ok (Real.arcsin (meanRadius / V3.norm p))

/-- `tangent_distance = sqrt(d² − R²)` of `get_earth_horizon_circle`,
parametric in `R` and `d`. -/
noncomputable def tangentDistance (R d : ℝ) : ℝ := Real.sqrt (d ^ 2 - R ^ 2)

/-- `horizon_angle = arccos(R / d)`. -/
noncomputable def horizonAngle (R d : ℝ) : ℝ := Real.arccos (R / d)

/-- `cone_half_angle = π/2 − horizon_angle`. -/
noncomputable def coneHalfAngle (R d : ℝ) : ℝ :=
  Real.pi / 2 - horizonAngle R d

/-- `circle_radius = tangent_distance · sin(cone_half_angle)`. -/
noncomputable def horizonCircleRadius (R d : ℝ) : ℝ :=
  tangentDistance R d * Real.sin (coneHalfAngle R d)

/-- `circle_center = camera_position + tangent_distance ·
cos(cone_half_angle) · camera_to_earth`, where `camera_to_earth` is the unit
vector from the camera towards the origin. -/
noncomputable def horizonCircleCenter (R : ℝ) (p : V3 ℝ) : V3 ℝ :=
  let cameraToEarth := V3.normalize (V3.zero.sub p)
  p.add (cameraToEarth.smul
    (tangentDistance R (V3.norm p) * Real.cos (coneHalfAngle R (V3.norm p))))

/-- `WGS84Spheroid.get_earth_horizon_circle`: the validation, the in-plane
basis `u, v`, and the sampled circle points
(`angles = np.linspace(0, 2π, num_points, endpoint=False)`). -/
noncomputable def getEarthHorizonCircleE (p : V3 ℝ) (numPoints : ℕ) :
    Except String (List (V3 ℝ)) :=
  if V3.norm p ≤ meanRadius then Except.error "Camera is inside Earth!" else
  let d := V3.norm p
  let cameraToEarth := V3.normalize (V3.zero.sub p)
  let u0 := if |cameraToEarth.z| < 9 / 10 then cameraToEarth.cross ⟨0, 0, 1⟩
            else cameraToEarth.cross ⟨1, 0, 0⟩
  let u := V3.normalize u0
  let v := cameraToEarth.cross u
  let angles := (List.range numPoints).map (fun i => 2 * Real.pi * i / numPoints)
  Except.ok (angles.map (fun a =>
    (horizonCircleCenter meanRadius p).add
      ((u.smul (horizonCircleRadius meanRadius d * Real.cos a)).add
        (v.smul (horizonCircleRadius meanRadius d * Real.sin a)))))

/-! ### `tools/attitude` — `DCM` composition and `produce_attitudes`

A scipy `Rotation` is embedded as its direction-cosine matrix; composition
(`*`) is the matrix product and `Rotation.inv()` is the transpose.  The
random draws (`DCM()` with no argument calls `Rotation.random()`) are passed
in as explicit parameters. -/

/-- `DCM.rotate(other, inverse)`: `self.rotation * other.rotation`, or
`self.rotation.inv() * other.rotation` when `inverse=True`. -/
def DCMrotate (c other : Mat3 ℚ) (inverse : Bool) : Mat3 ℚ :=
  if inverse then (Mat3.transpose c).mul other else c.mul other

/-- `__main__.produce_attitudes`.  `refCalDraw` is the random draw taken by
`reference_attitude_cal = DCM()` and `randomDraws` feeds the per-iteration
`ref_attitude = DCM()` draws of Step 3b.  `validate_arguments` raises when
fewer than one test pair is requested. -/
def produceAttitudes (localAttitude calibrationAttitude : Mat3 ℚ)
    (numAttitudePairs : ℕ) (refCalDraw : Mat3 ℚ) (randomDraws : List (Mat3 ℚ)) :
    Except String ((Mat3 ℚ × Mat3 ℚ) × List (Mat3 ℚ × Mat3 ℚ)) :=
  -- Step 0: validate_arguments
  if numAttitudePairs < 1 then
    Except.error "Must generate at least 1 test attitude pair"
  else
    -- Step 2: the calibration bases
    let referenceAttitudeCal := refCalDraw
    let localAttitudeCal := DCMrotate calibrationAttitude referenceAttitudeCal false
    let calibrationAttitudes := (localAttitudeCal, referenceAttitudeCal)
    -- Step 3a: the first test pair reuses the supplied local attitude
    let firstPair := (localAttitude,
      DCMrotate calibrationAttitude localAttitude true)
    -- Step 3b: the remaining pairs each take a fresh random reference
    let rest := (randomDraws.take (numAttitudePairs - 1)).map
      (fun refAttitude =>
        (DCMrotate calibrationAttitude refAttitude false, refAttitude))
    Except.ok (calibrationAttitudes, firstPair :: rest)

/-! ## Theorems -/

/-! ### Vector lemmas -/

namespace V3

theorem dot_nonneg (v : V3 ℝ) : 0 ≤ dot v v := by
  unfold dot; nlinarith [sq_nonneg v.x, sq_nonneg v.y, sq_nonneg v.z]

theorem norm_nonneg' (v : V3 ℝ) : 0 ≤ norm v := Real.sqrt_nonneg _

theorem norm_mul_self (v : V3 ℝ) : norm v * norm v = dot v v :=
  Real.mul_self_sqrt (dot_nonneg v)

theorem dot_comm {α : Type} [CommRing α] (v w : V3 α) : dot v w = dot w v := by
  unfold dot; ring

theorem dot_pos_of_ne_zero {v : V3 ℝ} (h : v ≠ zero) : 0 < dot v v := by
  rcases lt_or_eq_of_le (dot_nonneg v) with hlt | heq
  · exact hlt
  · exfalso
    apply h
    have hx : v.x = 0 ∧ v.y = 0 ∧ v.z = 0 := by
      unfold dot at heq
      refine ⟨?_, ?_, ?_⟩ <;>
        nlinarith [sq_nonneg v.x, sq_nonneg v.y, sq_nonneg v.z]
    cases v
    unfold zero
    simp only [V3.mk.injEq]
    exact ⟨hx.1, hx.2.1, hx.2.2⟩

theorem norm_pos_of_ne_zero {v : V3 ℝ} (h : v ≠ zero) : 0 < norm v :=
  Real.sqrt_pos.mpr (dot_pos_of_ne_zero h)

theorem ne_zero_of_dot_pos {v : V3 ℝ} (h : 0 < dot v v) : v ≠ zero := by
  intro hz
  rw [hz] at h
  unfold dot zero at h
  norm_num at h

theorem norm_smul (v : V3 ℝ) (c : ℝ) : norm (smul v c) = |c| * norm v := by
  unfold norm
  have h : dot (smul v c) (smul v c) = c ^ 2 * dot v v := by
    unfold dot smul; ring
  rw [h, Real.sqrt_mul (sq_nonneg c), Real.sqrt_sq_eq_abs]

/-- `normalize` on a non-zero vector produces a unit vector. -/
theorem norm_normalize {v : V3 ℝ} (h : v ≠ zero) : norm (normalize v) = 1 := by
  have hpos := norm_pos_of_ne_zero h
  unfold normalize
  rw [norm_smul, abs_of_pos (by positivity), one_div,
    inv_mul_cancel₀ (ne_of_gt hpos)]

theorem dot_normalize_self {v : V3 ℝ} (h : v ≠ zero) :
    dot (normalize v) (normalize v) = 1 := by
  rw [← norm_mul_self, norm_normalize h]
  norm_num

theorem dot_smul_left {α : Type} [CommRing α] (v w : V3 α) (c : α) :
    dot (smul v c) w = c * dot v w := by
  unfold dot smul; ring

theorem dot_smul_right {α : Type} [CommRing α] (v w : V3 α) (c : α) :
    dot v (smul w c) = c * dot v w := by
  unfold dot smul; ring

theorem dot_cross_left {α : Type} [CommRing α] (a b : V3 α) :
    dot (cross a b) a = 0 := by
  unfold dot cross; ring

theorem dot_cross_right {α : Type} [CommRing α] (a b : V3 α) :
    dot (cross a b) b = 0 := by
  unfold dot cross; ring

/-- Lagrange's identity for the 3-dimensional cross product. -/
theorem lagrange {α : Type} [CommRing α] (a b : V3 α) :
    dot (cross a b) (cross a b) + dot a b * dot a b = dot a a * dot b b := by
  unfold dot cross; ring

end V3

/-! ### Wraparound lemmas -/

/-- Loop measure: one 360-step towards the bound decreases the ceiling. -/
theorem ceil_step_lt (bound x : ℚ) (h : bound < x) :
    (⌈(x - 360 - bound) / 360⌉).toNat < (⌈(x - bound) / 360⌉).toNat := by
  have h1 : (1 : ℤ) ≤ ⌈(x - bound) / 360⌉ := by
    have hnum : (0 : ℚ) < x - bound := by linarith
    have hpos : (0 : ℚ) < (x - bound) / 360 := by positivity
    have := Int.ceil_pos.mpr hpos
    omega
  have h2 : ⌈(x - 360 - bound) / 360⌉ = ⌈(x - bound) / 360⌉ - 1 := by
    have harg : (x - 360 - bound) / 360 = (x - bound) / 360 - 1 := by ring
    rw [harg, Int.ceil_sub_one]
  omega

/-- The subtract-loop always ends at or below its bound. -/
theorem wrapDown_le_bound (bound x : ℚ) : wrapDown bound x ≤ bound := by
  rw [wrapDown]
  split
  · exact wrapDown_le_bound bound (x - 360)
  · linarith
  termination_by (⌈(x - bound) / 360⌉).toNat
  decreasing_by exact ceil_step_lt bound x (by assumption)

/-- The add-loop always ends at or above its bound. -/
theorem wrapUp_ge_bound (bound x : ℚ) : bound ≤ wrapUp bound x := by
  rw [wrapUp]
  split
  · exact wrapUp_ge_bound bound (x + 360)
  · linarith
  termination_by (⌈(bound - x) / 360⌉).toNat
  decreasing_by
    have hstep := ceil_step_lt x bound (by assumption)
    have harg : bound - (x + 360) = bound - 360 - x := by ring
    rw [harg]; exact hstep

/-- The add-loop never overshoots a cap lying at least one period above its
bound. -/
theorem wrapUp_le (bound x u : ℚ) (hxu : x ≤ u) (hbu : bound + 360 ≤ u) :
    wrapUp bound x ≤ u := by
  rw [wrapUp]
  split
  · exact wrapUp_le bound (x + 360) u (by linarith) hbu
  · exact hxu
  termination_by (⌈(bound - x) / 360⌉).toNat
  decreasing_by
    have hstep := ceil_step_lt x bound (by assumption)
    have harg : bound - (x + 360) = bound - 360 - x := by ring
    rw [harg]; exact hstep

/-- Starting at or below 0, the add-loop with bound 0 ends strictly below
360. -/
theorem wrapUp_zero_lt (x : ℚ) (hx : x ≤ 0) : wrapUp 0 x < 360 := by
  rw [wrapUp]
  split
  · rename_i hlt
    by_cases hc : x + 360 ≤ 0
    · exact wrapUp_zero_lt (x + 360) hc
    · rw [wrapUp]
      split
      · linarith
      · linarith
  · linarith
  termination_by (⌈(0 - x) / 360⌉).toNat
  decreasing_by
    have hstep := ceil_step_lt x 0 (by assumption)
    have harg : 0 - (x + 360) = 0 - 360 - x := by ring
    rw [harg]; exact hstep

/-! ### Claim C9 — `Vector.normalize` and the zero vector -/

/-- C9 counterexample: calling `normalize` on the zero vector does **not**
raise — `SphericalCurveProvider`-style callers would instead receive a NaN
vector; the embedded error channel is untouched and an `ok` value is
returned. -/
theorem normalizeE_zero_ok :
    V3.normalizeE V3.zero = Except.ok (V3.normalize V3.zero) := rfl

/-- C9 (amended): `Vector.normalize` performs no zero-vector check and never
raises; on every non-zero vector it returns a unit-norm vector. -/
theorem normalize_spec (v : V3 ℝ) :
    V3.normalizeE v = Except.ok (V3.normalize v) ∧
      (v ≠ V3.zero → V3.norm (V3.normalize v) = 1) :=
  ⟨rfl, fun h => V3.norm_normalize h⟩

/-- C9 witness: the amended statement at the concrete vector `(3, 0, 4)`. -/
theorem normalize_spec_witness :
    V3.normalizeE ⟨3, 0, 4⟩ = Except.ok (V3.normalize ⟨3, 0, 4⟩) ∧
      V3.norm (V3.normalize ⟨3, 0, 4⟩) = 1 := by
  have h := normalize_spec ⟨3, 0, 4⟩
  refine ⟨h.1, h.2 ?_⟩
  intro hz
  rw [show (V3.zero : V3 ℝ) = ⟨0, 0, 0⟩ from rfl] at hz
  simp only [V3.mk.injEq] at hz
  norm_num at hz

/-! ### Claim C5 — `Attitude` angle normalization ranges -/

/-- C5 counterexample: the attitude tool's wraparound uses strict
comparisons, so `ra = 720` ends at `360` (not in `[0, 360)`) and
`de = -540` ends at `-180` (not in `(-180, 180]`). -/
theorem mkAttitudeT_boundary :
    mkAttitudeT 720 (-540) 90 = ⟨360, -180, 90⟩ ∧ ¬((360 : ℚ) < 360) := by
  have hra : normRa 720 = 360 := by
    unfold normRa
    rw [wrapDown]; norm_num
    rw [wrapDown]; norm_num
    rw [wrapUp]; norm_num
  have hde : normDe (-540) = -180 := by
    unfold normDe
    rw [wrapDown]; norm_num
    rw [wrapUp]; norm_num
    rw [wrapUp]; norm_num
  have hroll : normRoll 90 = 90 := by
    unfold normRoll
    rw [wrapDown]; norm_num
    rw [wrapDown]; norm_num
    rw [wrapUp]; norm_num
    rw [wrapUp]; norm_num
  refine ⟨?_, by norm_num⟩
  unfold mkAttitudeT
  rw [hra, hde, hroll]

/-- C5 (amended): the attitude tool's `Attitude` constructor wraps each angle
independently by iterated ±360 steps into `ra ∈ [0, 360]`,
`de ∈ [-180, 180]` and `roll ∈ [0, 360)` (the upper/lower boundaries of `ra`
and `de` are attainable because the loops compare strictly); the generator's
`Attitude` constructor applies no wraparound at all, only an optional
degree-to-radian conversion. -/
theorem mkAttitudeT_ranges :
    (∀ ra de roll : ℚ,
      0 ≤ (mkAttitudeT ra de roll).ra ∧ (mkAttitudeT ra de roll).ra ≤ 360 ∧
      -180 ≤ (mkAttitudeT ra de roll).de ∧ (mkAttitudeT ra de roll).de ≤ 180 ∧
      0 ≤ (mkAttitudeT ra de roll).roll ∧ (mkAttitudeT ra de roll).roll < 360) ∧
    (∀ x y z : ℝ, mkAttitudeG x y z true = ⟨x, y, z⟩) := by
  constructor
  · intro ra de roll
    unfold mkAttitudeT normRa normDe normRoll
    refine ⟨wrapUp_ge_bound 0 _, wrapUp_le 0 _ 360 (wrapDown_le_bound 360 ra) (by norm_num),
      wrapUp_ge_bound (-180) _, wrapUp_le (-180) _ 180 (wrapDown_le_bound 180 de) (by norm_num),
      wrapUp_ge_bound 0 _, wrapUp_zero_lt _ (wrapDown_le_bound 0 roll)⟩
  · intro x y z
    unfold mkAttitudeG
    simp

/-! ### Matrix lemmas -/

theorem Mat3.mul_assoc {α : Type} [CommRing α] (A B C : Mat3 α) :
    (A.mul B).mul C = A.mul (B.mul C) := by
  simp only [Mat3.mul, Mat3.mk.injEq]
  refine ⟨?_, ?_, ?_, ?_, ?_, ?_, ?_, ?_, ?_⟩ <;> ring

theorem Mat3.one_mul {α : Type} [CommRing α] (A : Mat3 α) :
    (Mat3.one).mul A = A := by
  cases A
  simp only [Mat3.mul, Mat3.one, Mat3.mk.injEq]
  refine ⟨?_, ?_, ?_, ?_, ?_, ?_, ?_, ?_, ?_⟩ <;> ring

/-! ### Claim C8 — every generated attitude pair satisfies
`local = C.rotate(reference)` -/

/-- C8: for an orthonormal calibration rotation `C` (`C·Cᵀ = 1`), every pair
`(local, reference)` produced by `produce_attitudes` — the calibration pair
and each test pair, whether the local attitude was supplied (first test
pair) or randomly drawn — satisfies `local = C.rotate(reference)` exactly. -/
theorem produceAttitudes_pairs (L C : Mat3 ℚ) (n : ℕ) (rc : Mat3 ℚ)
    (draws : List (Mat3 ℚ)) (out : (Mat3 ℚ × Mat3 ℚ) × List (Mat3 ℚ × Mat3 ℚ))
    (hok : produceAttitudes L C n rc draws = Except.ok out)
    (hC : C.mul C.transpose = Mat3.one) :
    ∀ pr ∈ out.1 :: out.2, pr.1 = DCMrotate C pr.2 false := by
  unfold produceAttitudes at hok
  split at hok
  · exact absurd hok (by simp)
  · simp only [Except.ok.injEq] at hok
    subst hok
    intro pr hpr
    simp only [List.mem_cons] at hpr
    rcases hpr with h | h | h
    · subst h
      rfl
    · subst h
      show L = DCMrotate C (DCMrotate C L true) false
      unfold DCMrotate
      simp only [if_true, if_false, Bool.false_eq_true, ite_false, ite_true]
      rw [← Mat3.mul_assoc, hC, Mat3.one_mul]
    · rcases List.mem_map.mp h with ⟨r, _, hr⟩
      subst hr
      rfl

/-- C8 witness: the first test pair at a concrete 90°-about-z calibration
rotation and a concrete local attitude. -/
theorem produceAttitudes_pairs_witness :
    (⟨1, 2, 3, 4, 5, 6, 7, 8, 9⟩ : Mat3 ℚ) =
      DCMrotate ⟨0, -1, 0, 1, 0, 0, 0, 0, 1⟩
        (DCMrotate ⟨0, -1, 0, 1, 0, 0, 0, 0, 1⟩ ⟨1, 2, 3, 4, 5, 6, 7, 8, 9⟩ true)
        false := by
  have h := produceAttitudes_pairs ⟨1, 2, 3, 4, 5, 6, 7, 8, 9⟩
    ⟨0, -1, 0, 1, 0, 0, 0, 0, 1⟩ 1 Mat3.one []
    ((DCMrotate ⟨0, -1, 0, 1, 0, 0, 0, 0, 1⟩ Mat3.one false, Mat3.one),
     [(⟨1, 2, 3, 4, 5, 6, 7, 8, 9⟩,
       DCMrotate ⟨0, -1, 0, 1, 0, 0, 0, 0, 1⟩ ⟨1, 2, 3, 4, 5, 6, 7, 8, 9⟩ true)])
    rfl (by norm_num [Mat3.mul, Mat3.transpose, Mat3.one, Mat3.mk.injEq])
  exact h (⟨1, 2, 3, 4, 5, 6, 7, 8, 9⟩,
    DCMrotate ⟨0, -1, 0, 1, 0, 0, 0, 0, 1⟩ ⟨1, 2, 3, 4, 5, 6, 7, 8, 9⟩ true)
    (by simp)

/-! ### Claims C6 and C10 — `Camera.spatial_to_camera` -/

theorem projList_length_add (cam : CameraQ) (pts : List (V3 ℚ)) :
    (projList cam pts).length
      + pts.countP (fun p => decide (p.x < cam.focalLength)) = pts.length := by
  induction pts with
  | nil => rfl
  | cons p t ih =>
    by_cases hp : p.x < cam.focalLength <;>
      simp [projList, List.filterMap_cons, List.countP_cons, hp] at ih ⊢ <;>
      omega

theorem projList_mem (cam : CameraQ) (pts : List (V3 ℚ)) (v : V2 ℚ)
    (hv : v ∈ projList cam pts) :
    ∃ p, p ∈ pts ∧ ¬(p.x < cam.focalLength) ∧ v = projPoint cam p := by
  unfold projList at hv
  rcases List.mem_filterMap.mp hv with ⟨p, hp, hpv⟩
  by_cases hlt : p.x < cam.focalLength
  · rw [if_pos hlt] at hpv
    exact absurd hpv (by simp)
  · rw [if_neg hlt] at hpv
    exact ⟨p, hp, hlt, (Option.some.injEq _ _ ▸ hpv).symm⟩

/-- C6 counterexample: a batch of one point whose depth is below the focal
length returns `[None] * 1` — a list of the **same** length as the input,
not one element shorter. -/
theorem spatialToCamera_single_invalid :
    spatialToCamera ⟨1, 1, 100, 100⟩ [⟨0, 5, 5⟩] = CamReturn.noneList 1 ∧
      (1 : ℕ) ≠ 1 - 1 := by
  exact ⟨rfl, by norm_num⟩

/-- C6 (amended): `spatial_to_camera` never includes a point whose depth
(first coordinate) is below the focal length, and maps every surviving point
to `focal_length/depth · (lateral₁, lateral₂) / pixel_pitch`; on every batch
of **three or more** points containing exactly one point with depth below
the focal length it returns a list exactly one element shorter than the
input (a two-point batch returns the lone surviving vector unwrapped, and a
one-point batch returns `[None]`). -/
theorem spatialToCamera_drop_one (cam : CameraQ) (pts : List (V3 ℚ))
    (h1 : pts.countP (fun p => decide (p.x < cam.focalLength)) = 1)
    (h3 : 3 ≤ pts.length) :
    spatialToCamera cam pts = CamReturn.vecList (projList cam pts) ∧
    (projList cam pts).length = pts.length - 1 ∧
    ∀ v ∈ projList cam pts,
      ∃ p, p ∈ pts ∧ ¬(p.x < cam.focalLength) ∧ v = projPoint cam p := by
  have hlen : (projList cam pts).length = pts.length - 1 := by
    have := projList_length_add cam pts
    omega
  have h2 : 2 ≤ (projList cam pts).length := by omega
  refine ⟨?_, hlen, fun v hv => projList_mem cam pts v hv⟩
  match hpl : projList cam pts with
  | [] => rw [hpl] at hlen; simp at hlen; omega
  | [v] => rw [hpl] at hlen; simp at hlen; omega
  | a :: b :: l =>
    unfold spatialToCamera
    rw [hpl]

/-- C6 witness: a three-point batch with exactly one invalid point. -/
theorem spatialToCamera_drop_one_witness :
    spatialToCamera ⟨1, 1, 100, 100⟩ [⟨0, 1, 1⟩, ⟨2, 4, 6⟩, ⟨4, 4, 8⟩] =
      CamReturn.vecList (projList ⟨1, 1, 100, 100⟩ [⟨0, 1, 1⟩, ⟨2, 4, 6⟩, ⟨4, 4, 8⟩]) ∧
    (projList ⟨1, 1, 100, 100⟩ [⟨0, 1, 1⟩, ⟨2, 4, 6⟩, ⟨4, 4, 8⟩]).length = 3 - 1 ∧
    ∀ v ∈ projList ⟨1, 1, 100, 100⟩ [⟨0, 1, 1⟩, ⟨2, 4, 6⟩, ⟨4, 4, 8⟩],
      ∃ p, p ∈ [(⟨0, 1, 1⟩ : V3 ℚ), ⟨2, 4, 6⟩, ⟨4, 4, 8⟩] ∧
        ¬(p.x < (1 : ℚ)) ∧ v = projPoint ⟨1, 1, 100, 100⟩ p :=
  spatialToCamera_drop_one ⟨1, 1, 100, 100⟩ [⟨0, 1, 1⟩, ⟨2, 4, 6⟩, ⟨4, 4, 8⟩]
    (by norm_num [List.countP_cons, List.countP_nil]) (by norm_num)

/-- C10: the return-shape convention of `spatial_to_camera`: a batch whose
points all lie behind the focal plane returns `[None] * len(points)` (a list
of `None`s as long as the input); a batch with exactly one surviving point
returns that projected 2D vector itself, unwrapped; a batch with two or more
surviving points returns the list of projected vectors. -/
theorem spatialToCamera_shape (cam : CameraQ) (pts : List (V3 ℚ)) :
    ((∀ p ∈ pts, p.x < cam.focalLength) →
      spatialToCamera cam pts = CamReturn.noneList pts.length) ∧
    (∀ v, projList cam pts = [v] → spatialToCamera cam pts = CamReturn.vec v) ∧
    (2 ≤ (projList cam pts).length →
      spatialToCamera cam pts = CamReturn.vecList (projList cam pts)) := by
  refine ⟨?_, ?_, ?_⟩
  · intro hall
    have hnil : projList cam pts = [] := by
      unfold projList
      rw [List.filterMap_eq_nil_iff]
      intro p hp
      rw [if_pos (hall p hp)]
    unfold spatialToCamera
    rw [hnil]
  · intro v hv
    unfold spatialToCamera
    rw [hv]
  · intro h2
    match hpl : projList cam pts with
    | [] => rw [hpl] at h2; simp at h2
    | [v] => rw [hpl] at h2; simp at h2
    | a :: b :: l =>
      unfold spatialToCamera
      rw [hpl]

/-- C10 witness: the three return shapes at concrete batches (all-invalid,
one survivor, two survivors). -/
theorem spatialToCamera_shape_witness :
    spatialToCamera ⟨1, 1, 100, 100⟩ [⟨0, 1, 1⟩, ⟨0, 2, 2⟩] = CamReturn.noneList 2 ∧
    spatialToCamera ⟨1, 1, 100, 100⟩ [⟨0, 1, 1⟩, ⟨2, 4, 6⟩] = CamReturn.vec ⟨2, 3⟩ ∧
    spatialToCamera ⟨1, 1, 100, 100⟩ [⟨1, 2, 4⟩, ⟨2, 4, 6⟩] =
      CamReturn.vecList [⟨2, 4⟩, ⟨2, 3⟩] := by
  have h := spatialToCamera_shape ⟨1, 1, 100, 100⟩
  refine ⟨h [⟨0, 1, 1⟩, ⟨0, 2, 2⟩] |>.1 ?_, ?_, ?_⟩
  · intro p hp
    fin_cases hp <;> norm_num
  · refine h [⟨0, 1, 1⟩, ⟨2, 4, 6⟩] |>.2.1 ⟨2, 3⟩ ?_
    norm_num [projList, projPoint, List.filterMap_cons, V2.mk.injEq]
  · have h2 := h [⟨1, 2, 4⟩, ⟨2, 4, 6⟩] |>.2.2
    have hpl : projList ⟨1, 1, 100, 100⟩ [⟨1, 2, 4⟩, ⟨2, 4, 6⟩] =
        [⟨2, 4⟩, ⟨2, 3⟩] := by
      norm_num [projList, projPoint, List.filterMap_cons, V2.mk.injEq]
    rw [h2 (by rw [hpl]; norm_num), hpl]

/-! ### Claim C7 — `to_coordinate_system` on a batch of exactly three
points -/

/-- C7: on a batch of exactly three points the numpy transpose guard
(`not points.shape[0] == 3`) fails, so `np.linalg.solve` is applied to the
stacked point **rows** instead of the point columns: even in the identity
(celestial) frame with origin position, the three input points come back
transposed, and the first output vector does not satisfy
`basis · local = point − origin`. -/
theorem toCoordinateSystem_three_bug :
    toCoordinateSystem celestialSystem [⟨1, 2, 3⟩, ⟨4, 5, 6⟩, ⟨7, 8, 9⟩] =
      Except.ok (CoordRet.list [⟨1, 4, 7⟩, ⟨2, 5, 8⟩, ⟨3, 6, 9⟩]) ∧
    (Mat3.ofCols celestialSystem.xhat celestialSystem.yhat
        celestialSystem.zhat).mulVec ⟨1, 4, 7⟩ ≠
      (⟨1, 2, 3⟩ : V3 ℚ).sub celestialSystem.position := by
  constructor
  · norm_num [toCoordinateSystem, celestialSystem, Mat3.ofCols, Mat3.solve3,
      Mat3.det, V3.sub, V3.mk.injEq, CoordRet.list.injEq]
  · norm_num [celestialSystem, Mat3.ofCols, Mat3.mulVec, V3.sub, V3.mk.injEq]

/-! ### Claim C1 — the declination/roll sign convention -/

/-- C1 counterexample: `CoordinateSystem.__init__` does **not** negate the
declination.  At attitude `(ra, de, roll) = (0, π/2, 0)` the code's basis has
`x̂ = (0, 0, 1)`, while the claimed construction (declination negated before
composing) yields `x̂ = (0, 0, -1)`; the two differ. -/
theorem coordBasis_de_not_negated :
    (coordBasis ⟨0, Real.pi / 2, 0⟩).xhat = ⟨0, 0, 1⟩ ∧
    (specCoordBasis ⟨0, Real.pi / 2, 0⟩).xhat = ⟨0, 0, -1⟩ ∧
    ((⟨0, 0, 1⟩ : V3 ℝ) ≠ ⟨0, 0, -1⟩) := by
  refine ⟨?_, ?_, ?_⟩
  · simp [coordBasis, Real.cos_pi_div_two, Real.sin_pi_div_two]
  · simp [specCoordBasis, Real.cos_pi_div_two, Real.sin_pi_div_two]
  · intro h
    simp only [V3.mk.injEq] at h
    obtain ⟨-, -, h3⟩ := h
    norm_num at h3

/-- C1 (amended): in the generator's `CoordinateSystem` the declination is
used as-is and only the roll is negated, while the attitude tool's
`Attitude.to_dcm` negates both declination and roll before composing (and
`DCM.to_attitude` negates them again on the way back); the two conventions
agree: for every attitude, the column-stacked generator basis equals the
attitude tool's composed rotation `Rz(ra)·Ry(-de)·Rx(-roll)` — the
declination negation is realised by the `Ry(-de)` factor rather than by a
negation in the component formulas. -/
theorem coordBasis_eq_toDcm (ra de roll : ℝ) :
    basisMatrix (coordBasis ⟨ra, de, roll⟩) = toDcm ra de roll := by
  unfold basisMatrix coordBasis toDcm rotZ rotY rotX Mat3.ofCols Mat3.mul
  simp only [V3.cross, V3.smul, V3.add, V3.sub, Real.cos_neg, Real.sin_neg]
  simp only [Mat3.mk.injEq]
  refine ⟨by ring, by ring, by ring, by ring, by ring, by ring, by ring, ?_, ?_⟩
  · linear_combination (-(Real.cos de * Real.sin roll)) * Real.sin_sq_add_cos_sq ra
  · linear_combination (Real.cos de * Real.cos roll) * Real.sin_sq_add_cos_sq ra

/-! ### Claim C2 — domain validation of the two edge providers -/

theorem V3.norm_axis (a : ℝ) (ha : 0 ≤ a) : V3.norm ⟨a, 0, 0⟩ = a := by
  unfold V3.norm V3.dot
  norm_num
  exact Real.sqrt_mul_self ha

/-- C2 counterexample: a camera position at distance 1 (well inside the
body radius) does **not** make `SphericalCurveProvider.__init__` raise — the
exact provider has no validation and returns its (numerically meaningless)
state. -/
theorem sphericalInit_no_raise_inside :
    V3.norm ⟨1, 0, 0⟩ ≤ EARTH_RADIUS ∧
    sphericalInitE ⟨1, 0, 0⟩ = Except.ok
      ⟨sphericalCenter ⟨1, 0, 0⟩, sphericalRadius ⟨1, 0, 0⟩,
       sphericalRadius2 ⟨1, 0, 0⟩⟩ := by
  refine ⟨?_, rfl⟩
  rw [V3.norm_axis 1 (by norm_num)]
  unfold EARTH_RADIUS
  norm_num

/-- C2 (amended): the sampled spheroid provider
(`WGS84Spheroid.get_earth_disk_points`) raises exactly when the camera
distance is at most the mean radius `(2·R_eq + R_polar)/3`, and returns the
angular radius otherwise; the exact tangent-circle provider
(`SphericalCurveProvider.__init__`) performs no validation at all and never
raises, whatever the camera position. -/
theorem edgeProviders_validation (p : V3 ℝ) :
    (V3.norm p ≤ meanRadius →
      getEarthDiskPointsE p = Except.error "Camera is inside Earth!") ∧
    (meanRadius < V3.norm p →
      getEarthDiskPointsE p = Except.ok (Real.arcsin (meanRadius / V3.norm p))) ∧
    sphericalInitE p = Except.ok
      ⟨sphericalCenter p, sphericalRadius p, sphericalRadius2 p⟩ := by
  refine ⟨fun h => ?_, fun h => ?_, rfl⟩
  · unfold getEarthDiskPointsE
    rw [if_pos h]
  · unfold getEarthDiskPointsE
    rw [if_neg (not_le.mpr h)]

/-- C2 witness: the validation at a position inside the body (distance 1)
and at one outside it (distance 2·10⁷ m). -/
theorem edgeProviders_validation_witness :
    getEarthDiskPointsE ⟨1, 0, 0⟩ = Except.error "Camera is inside Earth!" ∧
    getEarthDiskPointsE ⟨20000000, 0, 0⟩ =
      Except.ok (Real.arcsin (meanRadius / V3.norm ⟨20000000, 0, 0⟩)) := by
  constructor
  · refine (edgeProviders_validation ⟨1, 0, 0⟩).1 ?_
    rw [V3.norm_axis 1 (by norm_num)]
    unfold meanRadius EARTH_EQUATORIAL_RADIUS EARTH_POLAR_RADIUS
    norm_num
  · refine (edgeProviders_validation ⟨20000000, 0, 0⟩).2.1 ?_
    rw [V3.norm_axis 20000000 (by norm_num)]
    unfold meanRadius EARTH_EQUATORIAL_RADIUS EARTH_POLAR_RADIUS
    norm_num

/-! ### Claim C4 — the two horizon-circle computations agree -/

theorem V3.norm_zero_sub (p : V3 ℝ) : V3.norm (V3.zero.sub p) = V3.norm p := by
  unfold V3.norm
  congr 1
  unfold V3.dot V3.sub V3.zero
  ring

/-- C4: for the same body radius `R` and any camera position strictly outside
the body, the sampled/analytic-cone path
(`horizon_angle = acos(R/d)`, `cone_half_angle = π/2 − horizon_angle`,
`circle_radius = tangent_distance·sin(cone_half_angle)`, its circle center)
computes exactly the same circle radius and circle center as the exact
tangent-circle path (`α = asin(R/d)`, `t = sqrt(d² − R²)`,
`center_offset = d − t·cos(α)`, `radius = t·sin(α)`). -/
theorem horizonCircle_matches_exact (R : ℝ) (p : V3 ℝ) (hR : 0 < R)
    (hd : R < V3.norm p) :
    horizonCircleRadius R (V3.norm p) = radiusLen R (V3.norm p) ∧
    horizonCircleCenter R p = exactCircleCenter R p := by
  have hd0 : 0 < V3.norm p := lt_trans hR hd
  have hang : coneHalfAngle R (V3.norm p) = tangentAlpha R (V3.norm p) := by
    unfold coneHalfAngle horizonAngle tangentAlpha
    rw [Real.arccos_eq_pi_div_two_sub_arcsin]
    ring
  have htan : tangentDistance R (V3.norm p) = tangentLen R (V3.norm p) := by
    unfold tangentDistance tangentLen
    congr 1
    ring
  refine ⟨?_, ?_⟩
  · unfold horizonCircleRadius radiusLen
    rw [hang, htan]
  · simp only [horizonCircleCenter, exactCircleCenter, centerLen]
    rw [hang, htan]
    simp only [V3.normalize]
    rw [V3.norm_zero_sub]
    simp only [V3.add, V3.smul, V3.sub, V3.zero]
    have hne := ne_of_gt hd0
    simp only [V3.mk.injEq]
    refine ⟨?_, ?_, ?_⟩ <;> (field_simp; ring)

/-- C4 witness: the agreement at body radius 3 and camera position
`(5, 0, 0)`. -/
theorem horizonCircle_matches_exact_witness :
    (0 : ℝ) < 3 ∧ (3 : ℝ) < V3.norm ⟨5, 0, 0⟩ ∧
    horizonCircleRadius 3 (V3.norm ⟨5, 0, 0⟩) = radiusLen 3 (V3.norm ⟨5, 0, 0⟩) ∧
    horizonCircleCenter 3 ⟨5, 0, 0⟩ = exactCircleCenter 3 ⟨5, 0, 0⟩ := by
  have h3 : (0 : ℝ) < 3 := by norm_num
  have h5 : (3 : ℝ) < V3.norm ⟨5, 0, 0⟩ := by
    rw [V3.norm_axis 5 (by norm_num)]
    norm_num
  have h := horizonCircle_matches_exact 3 ⟨5, 0, 0⟩ h3 h5
  exact ⟨h3, h5, h.1, h.2⟩

/-! ### Claim C3 — every exact-provider point lies on the sphere -/

theorem V3.dot_smul_smul {α : Type} [CommRing α] (v w : V3 α) (a b : α) :
    V3.dot (V3.smul v a) (V3.smul w b) = a * b * V3.dot v w := by
  unfold V3.dot V3.smul; ring

theorem V3.norm_zero_eq : V3.norm V3.zero = 0 := by
  unfold V3.norm V3.dot V3.zero
  norm_num

theorem V3.ne_zero_of_norm_pos {p : V3 ℝ} (h : 0 < V3.norm p) : p ≠ V3.zero := by
  intro h0
  rw [h0, V3.norm_zero_eq] at h
  exact lt_irrefl 0 h

/-- Scalar facts about the tangent-circle intermediates. -/
theorem sin_tangentAlpha (R d : ℝ) (hR : 0 < R) (hd : R < d) :
    Real.sin (tangentAlpha R d) = R / d := by
  have hd0 : 0 < d := lt_trans hR hd
  have h0 : (0 : ℝ) ≤ R / d := div_nonneg hR.le hd0.le
  unfold tangentAlpha
  exact Real.sin_arcsin (by linarith) (by rw [div_le_one hd0]; linarith)

theorem tangentLen_mul_self (R d : ℝ) (hR : 0 < R) (hd : R < d) :
    tangentLen R d * tangentLen R d = d * d - R * R := by
  unfold tangentLen
  exact Real.mul_self_sqrt (by nlinarith)

theorem tangentLen_pos (R d : ℝ) (hR : 0 < R) (hd : R < d) :
    0 < tangentLen R d := by
  unfold tangentLen
  exact Real.sqrt_pos.mpr (by nlinarith)

theorem cos_tangentAlpha (R d : ℝ) (hR : 0 < R) (hd : R < d) :
    Real.cos (tangentAlpha R d) = tangentLen R d / d := by
  have hd0 : 0 < d := lt_trans hR hd
  unfold tangentAlpha
  rw [Real.cos_arcsin]
  have h1 : 1 - (R / d) ^ 2 = (d * d - R * R) / d ^ 2 := by
    field_simp
    ring
  rw [h1, Real.sqrt_div (by nlinarith), Real.sqrt_sq hd0.le]
  rfl

theorem centerLen_eq (R d : ℝ) (hR : 0 < R) (hd : R < d) :
    centerLen R d = R * R / d := by
  have hd0 : 0 < d := lt_trans hR hd
  unfold centerLen
  rw [cos_tangentAlpha R d hR hd,
    show tangentLen R d * (tangentLen R d / d) =
      tangentLen R d * tangentLen R d / d from by ring,
    tangentLen_mul_self R d hR hd]
  field_simp

theorem radiusLen_eq (R d : ℝ) (hR : 0 < R) (hd : R < d) :
    radiusLen R d = tangentLen R d * R / d := by
  unfold radiusLen
  rw [sin_tangentAlpha R d hR hd]
  ring

theorem circle_sq (R d : ℝ) (hR : 0 < R) (hd : R < d) :
    centerLen R d * centerLen R d + radiusLen R d * radiusLen R d = R * R := by
  have hd0 : 0 < d := lt_trans hR hd
  rw [centerLen_eq R d hR hd, radiusLen_eq R d hR hd]
  have htt := tangentLen_mul_self R d hR hd
  field_simp
  nlinarith [htt]

/-- In every `float_equals` branch the chosen radius direction is exactly
orthogonal to the camera position. -/
theorem dot_radiusDir (p : V3 ℝ) (hd : EARTH_RADIUS < V3.norm p) :
    V3.dot p (sphericalRadiusDir p) = 0 := by
  have hR : (0 : ℝ) < EARTH_RADIUS := by unfold EARTH_RADIUS; norm_num
  have hd0 : 0 < V3.norm p := lt_trans hR hd
  have hdot : EARTH_RADIUS * EARTH_RADIUS < V3.dot p p := by
    rw [← V3.norm_mul_self]
    nlinarith [V3.norm_nonneg' p]
  unfold sphericalRadiusDir
  split_ifs with h1 h2
  · -- both |p.x| and |p.y| below tolerance: the third branch divides by p.z
    unfold floatEquals at h1 h2
    rw [zero_sub, abs_neg] at h1 h2
    have hx := abs_lt.mp h1
    have hy := abs_lt.mp h2
    have hz : p.z ≠ 0 := by
      intro h0
      unfold EARTH_RADIUS at hdot
      unfold V3.dot at hdot
      rw [h0] at hdot
      nlinarith [hx.1, hx.2, hy.1, hy.2]
    have hcancel : p.z * (-(p.x + p.y) / p.z) = -(p.x + p.y) := by
      field_simp
    unfold V3.dot
    rw [hcancel]
    ring
  · -- second branch divides by p.y
    have hy : p.y ≠ 0 := by
      intro h0
      apply h2
      unfold floatEquals
      rw [h0]
      norm_num
    have hcancel : p.y * (-(p.x + p.z) / p.y) = -(p.x + p.z) := by
      field_simp
    unfold V3.dot
    rw [hcancel]
    ring
  · -- first branch divides by p.x
    have hx : p.x ≠ 0 := by
      intro h0
      apply h1
      unfold floatEquals
      rw [h0]
      norm_num
    have hcancel : p.x * (-(p.y + p.z) / p.x) = -(p.y + p.z) := by
      field_simp
    unfold V3.dot
    rw [hcancel]
    ring

/-- The chosen radius direction always has a component equal to 1, so it is
never the zero vector. -/
theorem radiusDir_ne_zero (p : V3 ℝ) : sphericalRadiusDir p ≠ V3.zero := by
  unfold sphericalRadiusDir V3.zero
  split_ifs
  · intro h
    simp only [V3.mk.injEq] at h
    obtain ⟨hone, -, -⟩ := h
    norm_num at hone
  · intro h
    simp only [V3.mk.injEq] at h
    obtain ⟨hone, -, -⟩ := h
    norm_num at hone
  · intro h
    simp only [V3.mk.injEq] at h
    obtain ⟨-, hone, -⟩ := h
    norm_num at hone

/-- The heart of C3: a generated sample at any parameter `t` lies exactly on
the sphere of radius `EARTH_RADIUS`. -/
theorem genPoint_norm (p : V3 ℝ) (t : ℝ) (hd : EARTH_RADIUS < V3.norm p) :
    V3.norm (genPoint p t) = EARTH_RADIUS := by
  have hR : (0 : ℝ) < EARTH_RADIUS := by unfold EARTH_RADIUS; norm_num
  have hd0 : 0 < V3.norm p := lt_trans hR hd
  have hp0 : p ≠ V3.zero := V3.ne_zero_of_norm_pos hd0
  have hdir0 := radiusDir_ne_zero p
  have hdotdir := dot_radiusDir p hd
  -- dot products of the three stored vectors
  have hcc : V3.dot (sphericalCenter p) (sphericalCenter p) =
      centerLen EARTH_RADIUS (V3.norm p) * centerLen EARTH_RADIUS (V3.norm p) := by
    unfold sphericalCenter exactCircleCenter
    rw [V3.dot_smul_smul, V3.dot_normalize_self hp0]
    ring
  have hr1r1 : V3.dot (sphericalRadius p) (sphericalRadius p) =
      radiusLen EARTH_RADIUS (V3.norm p) * radiusLen EARTH_RADIUS (V3.norm p) := by
    unfold sphericalRadius
    rw [V3.dot_smul_smul, V3.dot_normalize_self hdir0]
    ring
  have hcr1 : V3.dot (sphericalCenter p) (sphericalRadius p) = 0 := by
    unfold sphericalCenter exactCircleCenter sphericalRadius V3.normalize
    rw [V3.dot_smul_smul, V3.dot_smul_smul, hdotdir]
    ring
  have hcr2 : V3.dot (sphericalCenter p) (sphericalRadius2 p) = 0 := by
    unfold sphericalRadius2 V3.normalize
    rw [V3.dot_smul_right, V3.dot_smul_right, V3.dot_comm, V3.dot_cross_left]
    ring
  have hr1r2 : V3.dot (sphericalRadius p) (sphericalRadius2 p) = 0 := by
    unfold sphericalRadius2 V3.normalize
    rw [V3.dot_smul_right, V3.dot_smul_right, V3.dot_comm, V3.dot_cross_right]
    ring
  have hcpos : 0 < centerLen EARTH_RADIUS (V3.norm p) := by
    rw [centerLen_eq _ _ hR hd]
    positivity
  have hrpos : 0 < radiusLen EARTH_RADIUS (V3.norm p) := by
    rw [radiusLen_eq _ _ hR hd]
    have := tangentLen_pos EARTH_RADIUS (V3.norm p) hR hd
    positivity
  have hxx0 : 0 < V3.dot ((sphericalCenter p).cross (sphericalRadius p))
      ((sphericalCenter p).cross (sphericalRadius p)) := by
    have hlag := V3.lagrange (sphericalCenter p) (sphericalRadius p)
    rw [hcr1, hcc, hr1r1] at hlag
    have hc2 : 0 < centerLen EARTH_RADIUS (V3.norm p) *
        centerLen EARTH_RADIUS (V3.norm p) := mul_pos hcpos hcpos
    have hr2 : 0 < radiusLen EARTH_RADIUS (V3.norm p) *
        radiusLen EARTH_RADIUS (V3.norm p) := mul_pos hrpos hrpos
    nlinarith [hlag, mul_pos hc2 hr2]
  have hx0 := V3.ne_zero_of_dot_pos hxx0
  have hr2r2 : V3.dot (sphericalRadius2 p) (sphericalRadius2 p) =
      radiusLen EARTH_RADIUS (V3.norm p) * radiusLen EARTH_RADIUS (V3.norm p) := by
    unfold sphericalRadius2
    rw [V3.dot_smul_smul, V3.dot_normalize_self hx0]
    ring
  -- expand the sample point
  have hexp : V3.dot (genPoint p t) (genPoint p t) =
      V3.dot (sphericalCenter p) (sphericalCenter p)
      + Real.sin t * Real.sin t * V3.dot (sphericalRadius p) (sphericalRadius p)
      + Real.cos t * Real.cos t * V3.dot (sphericalRadius2 p) (sphericalRadius2 p)
      + 2 * Real.sin t * V3.dot (sphericalCenter p) (sphericalRadius p)
      + 2 * Real.cos t * V3.dot (sphericalCenter p) (sphericalRadius2 p)
      + 2 * (Real.sin t * Real.cos t) *
          V3.dot (sphericalRadius p) (sphericalRadius2 p) := by
    unfold genPoint V3.dot V3.add V3.smul
    ring
  have hdotx : V3.dot (genPoint p t) (genPoint p t) =
      EARTH_RADIUS * EARTH_RADIUS := by
    rw [hexp, hcc, hr1r1, hr2r2, hcr1, hcr2, hr1r2]
    have hsc := Real.sin_sq_add_cos_sq t
    have hkey := circle_sq EARTH_RADIUS (V3.norm p) hR hd
    nlinarith [hsc, hkey]
  unfold V3.norm
  rw [hdotx]
  exact Real.sqrt_mul_self hR.le

/-- C3: for a camera strictly outside the body radius, every surface point
produced by `SphericalCurveProvider.generate_points` lies at distance exactly
`EARTH_RADIUS` from the origin (stronger than the claimed tolerance). -/
theorem generatePoints_on_sphere (p : V3 ℝ) (n : ℕ)
    (hd : EARTH_RADIUS < V3.norm p) :
    ∀ q ∈ (generatePoints p n).2, V3.norm q = EARTH_RADIUS := by
  intro q hq
  simp only [generatePoints, List.mem_map] at hq
  obtain ⟨t, -, rfl⟩ := hq
  exact genPoint_norm p t hd

/-- C3 witness: the sphere invariant at the concrete camera position
`(2·6378137, 0, 0)` for a one-point sample. -/
theorem generatePoints_on_sphere_witness :
    EARTH_RADIUS < V3.norm ⟨12756274, 0, 0⟩ ∧
    V3.norm (genPoint ⟨12756274, 0, 0⟩ 0) = EARTH_RADIUS := by
  have h : EARTH_RADIUS < V3.norm ⟨12756274, 0, 0⟩ := by
    rw [V3.norm_axis 12756274 (by norm_num)]
    unfold EARTH_RADIUS
    norm_num
  refine ⟨h, generatePoints_on_sphere ⟨12756274, 0, 0⟩ 1 h
    (genPoint ⟨12756274, 0, 0⟩ 0) ?_⟩
  simp [generatePoints, linspace]

end Found
